import Mathlib

/-
Verification development for the ai-codereviewer repository
(src/diffParse.ts: a stdin diff-to-insertions printer plus a PR review
pipeline).  The TypeScript source is shallowly embedded below; external
collaborators (gitdiff-parser, parse-diff, minimatch, JSON.parse, the
hosting REST API and the completion endpoint) are modelled as explicit
parameters of the environment.
-/

set_option maxHeartbeats 1000000

namespace AiCodeReviewer

/- ------------------------------------------------------------------ -/
/- Part 1: the diff-to-insertions printer (first half of diffParse.ts). -/
/- Data model of the gitdiff-parser library output: files, hunks,
   changes with a kind tag and a content string.                        -/

inductive GChangeType
  | insert
  | delete
  | normal
deriving DecidableEq, Repr

structure GChange where
  type : GChangeType
  content : String
deriving DecidableEq, Repr

structure GHunk where
  changes : List GChange
deriving DecidableEq, Repr

structure GFile where
  newPath : String
  hunks : List GHunk
deriving DecidableEq, Repr

/-- One `console.log(s)` call writes `s` followed by a newline. -/
def consoleLog (s : String) : String :=
  s ++ "\n"

/-- The per-hunk block built in `parseDiff`:
`let block = ""; block += hunk.changes.filter(c => c.type === "insert").map(c => c.content).join("\n")`. -/
def hunkBlock (h : GHunk) : String :=
  "" ++ String.intercalate "\n"
    ((h.changes.filter (fun c => c.type == GChangeType.insert)).map (fun c => c.content))

/-- The header line printed for a file: `+++++++++++ ${file.newPath} ++++++++++++`. -/
def headerLine (f : GFile) : String :=
  "+++++++++++ " ++ f.newPath ++ " ++++++++++++"

/-- The inner `file.hunks.forEach` loop: for each hunk,
`console.log(block); console.log("");`. -/
def printHunks : List GHunk → String
  | [] => ""
  | h :: hs => consoleLog (hunkBlock h) ++ consoleLog "" ++ printHunks hs

/-- Output of the body of `files.forEach` for one file: header line,
per-hunk blocks, then `console.log("\n")`. -/
def printFile (f : GFile) : String :=
  consoleLog (headerLine f) ++ printHunks f.hunks ++ consoleLog "\n"

/-- The whole `files.forEach` loop of `parseDiff`. -/
def printFiles : List GFile → String
  | [] => ""
  | f :: fs => printFile f ++ printFiles fs

/-- The stdout produced by `parseDiff` on an already-parsed diff. -/
def parseDiffOutput (files : List GFile) : String :=
  printFiles files

/-- Rendering of a list of lines, each terminated by a newline. -/
def unlines : List String → String
  | [] => ""
  | l :: ls => l ++ "\n" ++ unlines ls

/-- The per-file line list actually emitted by the printer: the header,
then for each hunk its insertion block followed by a blank separator
line, then two further blank lines after the file. -/
def fileLines (f : GFile) : List String :=
  headerLine f :: (f.hunks.flatMap (fun h => [hunkBlock h, ""])) ++ ["", ""]

/-- The claim's per-file output (spec wording): a header line, then ONE
per-file insertion block joining every insertion across every hunk,
then a blank separator line and an extra blank line. -/
def claimFileOutput (f : GFile) : String :=
  consoleLog (headerLine f) ++
    consoleLog (String.intercalate "\n"
      ((f.hunks.flatMap (fun h => h.changes)).filter
        (fun c => c.type == GChangeType.insert) |>.map (fun c => c.content))) ++
    consoleLog "" ++ consoleLog "\n"

/-- The claim's printer (spec wording), for comparison with `parseDiffOutput`. -/
def claimOutput : List GFile → String
  | [] => ""
  | f :: fs => claimFileOutput f ++ claimOutput fs

/- ------------------------------------------------------------------ -/
/- Part 2: the PR review pipeline (second half of diffParse.ts).        -/

/-- JavaScript values produced by `JSON.parse` (JSON numbers are
modelled as integers; no claim depends on fractional values). -/
inductive JsonVal
  | null
  | bool (b : Bool)
  | num (n : Int)
  | str (s : String)
  | arr (xs : List JsonVal)
  | obj (fields : List (String × JsonVal))

/-- JavaScript truthiness of a parsed JSON value. -/
def jsTruthy : JsonVal → Bool
  | .null => false
  | .bool b => b
  | .num n => n != 0
  | .str s => s != ""
  | .arr _ => true
  | .obj _ => true

/-- Is the value a JSON array (the only values with a `flatMap` method)? -/
def isArrVal : JsonVal → Bool
  | .arr _ => true
  | _ => false

/-- A thrown JavaScript error that is not caught by the per-hunk
`try`/`catch` (e.g. `aiResponses.flatMap is not a function`). -/
inductive JsErr
  | typeError
deriving DecidableEq, Repr

/-- Data model of the parse-diff library: a change is an add / del /
normal line.  Add and del changes carry a single line number `ln`
(new-version for add, old-version for del); normal changes carry
`ln1` (old) and `ln2` (new).  Unused fields are omitted. -/
inductive Change
  | add (ln : Int) (content : String)
  | del (ln : Int) (content : String)
  | normal (ln1 ln2 : Int) (content : String)
deriving DecidableEq, Repr

/-- The `ln` field of a parse-diff change (`undefined` on normal changes). -/
def lnField : Change → Option Int
  | .add ln _ => some ln
  | .del ln _ => some ln
  | .normal _ _ _ => none

/-- The `ln2` field of a parse-diff change (`undefined` on add/del changes). -/
def ln2Field : Change → Option Int
  | .add _ _ => none
  | .del _ _ => none
  | .normal _ ln2 _ => some ln2

/-- The content string of a parse-diff change. -/
def changeContent : Change → String
  | .add _ c => c
  | .del _ c => c
  | .normal _ _ c => c

/-- A parse-diff chunk: the `@@ ... @@` header string and the changes. -/
structure Chunk where
  content : String
  changes : List Change
deriving DecidableEq, Repr

/-- A parse-diff file record; only the fields the pipeline reads are
modelled.  The source field `to` is named `toPath` here because `to`
is a Lean keyword. -/
structure FileC where
  toPath : Option String
  chunks : List Chunk
deriving DecidableEq, Repr

structure PRDetails where
  owner : String
  repo : String
  pull_number : Int
  title : String
  description : String
deriving DecidableEq, Repr

/-- The fields of the CI event payload that `main` reads. -/
structure EventData where
  ownerLogin : String
  repoName : String
  number : Int
  action : String
  before : String
  after : String
deriving DecidableEq, Repr

/-- A comment record as assembled by `createComment`: `body` is the raw
`reviewComment` field of the model's reply (`none` = `undefined`),
`line` is `Number(lineNumber)` (`none` = `NaN`). -/
structure Comment where
  body : Option JsonVal
  path : String
  line : Option Int

/-- Outcome of one `axios.post` to the completion endpoint: either the
request throws, or it yields `choices[0].message?.content`. -/
inductive AIOutcome
  | err
  | resp (content : Option String)

/-- Remote calls made by the pipeline, in order. -/
inductive ApiCall
  | pullsGet (owner repo : String) (n : Int) (diffFormat : Bool)
  | compareCommits (owner repo basehead : String)
  | request (url : String)
  | completionPost (prompts : String × String × String)
  | createReview (owner repo : String) (n : Int)
      (comments : List Comment) (event : String)

/-- Console output relevant to the claims. -/
inductive LogEntry
  | unsupportedEvent (eventName : Option String)
  | noDiff
  | aiError
  | topError

/-- The environment: the CI inputs and every external collaborator
(REST API, completion endpoint, JSON.parse, minimatch, parse-diff),
modelled as explicit data / functions.  `ai i` is the outcome of the
`i`-th completion call of the run. -/
structure Env where
  event : EventData
  eventName : Option String
  prTitle : Option String
  prBody : Option String
  diffMedia : String
  compareDiffUrl : Option String
  urlFetch : String → String
  excludeInput : String
  parseDiffLib : String → List FileC
  jsonParse : String → Option JsonVal
  minimatch : String → String → Bool
  ai : Nat → AIOutcome

/-- Model of `getPRDetails`: event payload fields plus `title ?? ""` / `body ?? ""`
from the metadata response. -/
def prDetailsM (env : Env) : PRDetails :=
  { owner := env.event.ownerLogin
    repo := env.event.repoName
    pull_number := env.event.number
    title := env.prTitle.getD ""
    description := env.prBody.getD "" }

/-- JavaScript whitespace characters (the common ones; enough to model
`String.prototype.trim` on the inputs of interest). -/
def isWsChar (c : Char) : Bool :=
  c = ' ' || c = '\t' || c = '\n' || c = '\r' || c = '\x0b' || c = '\x0c'

/-- Model of JavaScript `s.trim()` (structural, kernel-reducible). -/
def jsTrim (s : String) : String :=
  ⟨((s.data.dropWhile isWsChar).reverse.dropWhile isWsChar).reverse⟩

/-- Splitting a character list on commas; the empty list yields one
empty group, as JavaScript `"".split(",")` yields `[""]`. -/
def jsSplitCommaAux : List Char → List (List Char)
  | [] => [[]]
  | c :: cs =>
    match jsSplitCommaAux cs with
    | [] => [[]]
    | g :: gs => if c = ',' then [] :: g :: gs else (c :: g) :: gs

/-- Model of JavaScript `s.split(",")`. -/
def jsSplitComma (s : String) : List String :=
  (jsSplitCommaAux s.data).map (fun l => ⟨l⟩)

/-- Decimal digit parsing for the string case of `Number(...)`. -/
def digitsToNat : List Char → Option Nat
  | [] => none
  | [c] => if c.isDigit then some (c.toNat - 48) else none
  | c :: cs =>
    if c.isDigit then
      match digitsToNat cs with
      | some n => some ((c.toNat - 48) * 10 ^ cs.length + n)
      | none => none
    else none

/-- Model of JavaScript `Number(s)` on an already-trimmed non-empty
string: an optional sign and decimal digits; anything else is `NaN`
(fractional and exotic forms are modelled as `NaN`; no claim uses them). -/
def jsStrToInt (s : String) : Option Int :=
  match s.data with
  | '-' :: cs => (digitsToNat cs).map (fun n => -(n : Int))
  | cs => (digitsToNat cs).map (fun n => (n : Int))

/-- Stringification of `file.toPath` inside a template literal
(`undefined` when the field is missing). -/
def jsShowOptStr : Option String → String
  | none => "undefined"
  | some s => s

/-- Stringification of an optional numeric field inside a template
literal. -/
def jsNumToStr : Option Int → String
  | none => "undefined"
  | some n => toString n

/-- JavaScript truthiness of an optional numeric field. -/
def jsNumTruthy : Option Int → Bool
  | none => false
  | some n => n != 0

/-- JavaScript truthiness of an optional string (`undefined` and `""`
are falsy). -/
def jsStrTruthy : Option String → Bool
  | none => false
  | some s => s != ""

/-- The line tag prepended to each change line of the prompt:
`${c.ln ? c.ln : c.ln2}`. -/
def changeLineTag (c : Change) : String :=
  if jsNumTruthy (lnField c) then jsNumToStr (lnField c) else jsNumToStr (ln2Field c)

/-- First prompt segment (system instructions) of `createPrompts`. -/
def sysPromptRules : String :=
  "You are a code analyzer and experienced software developer. Your task is to review pull requests. Instructions:\n- Do not give positive comments or compliments.\n- Provide comments and suggestions ONLY if there is something to improve, otherwise return an empty array.\n- Write the comment in GitHub Markdown format.\n- Use the given description only for the overall context and only comment the code.\n- Check your comment to make sure it is correct.\n- IMPORTANT: Do not make assumptions about what the code is supposed to do, only suggest improvements in syntax, keeping in mind the best practices of Javascript. \n- DO NOT suggest linting or formatting changes.\n- IMPORTANT: NEVER suggest adding comments to the code.\n- Point out any code smells in the block, but only after you understand exactly what the code does. If unsure, omit any comments about that line.\n "

/-- Second prompt segment (output-format instructions) of `createPrompts`. -/
def sysPromptFormat : String :=
  "Provide the response in following JSON format:  [\x7b\"lineNumber\":  <line_number>, \"reviewComment\": \"<review comment>\"\x7d]"

/-- Third prompt segment (user content) of `createPrompts`. -/
def userPromptM (file : FileC) (chunk : Chunk) (pr : PRDetails) : String :=
  "Review the following code diff in the file \"" ++ jsShowOptStr file.toPath ++
    "\" and take the pull request title and description into account when writing the response.\nPull request title: " ++
    pr.title ++ "\n  \nPull request description:\n---\n" ++ pr.description ++
    "\n---\n\nGit diff to review:\n\n```diff\n" ++ chunk.content ++ "\n" ++
    String.intercalate "\n"
      (chunk.changes.map (fun c => changeLineTag c ++ " " ++ changeContent c)) ++
    "\n```\n"

/-- Model of `createPrompts`: the triple of prompt segments for one chunk. -/
def createPromptsM (file : FileC) (chunk : Chunk) (pr : PRDetails) :
    String × String × String :=
  (sysPromptRules, sysPromptFormat, userPromptM file chunk pr)

/-- The text handed to `JSON.parse` by `getAIResponse`:
`response.data.choices[0].message?.content?.trim() || "[]"`. -/
def aiRawText : Option String → String
  | none => "[]"
  | some s => if jsTrim s = "" then "[]" else jsTrim s

/-- Model of `getAIResponse` for the `i`-th completion call: on a request error
or a `JSON.parse` failure the exception is caught, logged, and `null`
is returned; otherwise the parsed value is returned. -/
def getAIResponseM (env : Env) (i : Nat) : Option JsonVal × List LogEntry :=
  match env.ai i with
  | .err => (none, [.aiError])
  | .resp c =>
    match env.jsonParse (aiRawText c) with
    | none => (none, [.aiError])
    | some v => (some v, [])

/-- Property access on an element of the model's reply array: throws on
`null`, yields the field on objects, `undefined` otherwise. -/
def jsGetField (v : JsonVal) (name : String) : Except JsErr (Option JsonVal) :=
  match v with
  | .null => .error .typeError
  | .obj fs => .ok (fs.lookup name)
  | _ => .ok none

/-- Model of `Number(x)` on an optional JSON value; `none` models `NaN`.
Arrays and objects are modelled as `NaN` (no claim exercises them). -/
def jsToNumber : Option JsonVal → Option Int
  | none => none
  | some .null => some 0
  | some (.bool b) => some (if b then 1 else 0)
  | some (.num n) => some n
  | some (.str s) => if jsTrim s = "" then some 0 else jsStrToInt (jsTrim s)
  | some (.arr _) => none
  | some (.obj _) => none

/-- The comment built for one element of the reply array. -/
def commentOfResponse (toPath : String) (el : JsonVal) : Except JsErr Comment := do
  let body ← jsGetField el "reviewComment"
  let ln ← jsGetField el "lineNumber"
  .ok { body := body, path := toPath, line := jsToNumber ln }

/-- The `flatMap` callback body of `createComment`, applied to the
elements of a reply array in order (the first thrown error aborts). -/
def createCommentM (file : FileC) : List JsonVal → Except JsErr (List Comment)
  | [] => .ok []
  | el :: els =>
    if jsStrTruthy file.toPath then
      match commentOfResponse (file.toPath.getD "") el with
      | .error e => .error e
      | .ok c =>
        match createCommentM file els with
        | .error e => .error e
        | .ok cs => .ok (c :: cs)
    else
      match createCommentM file els with
      | .error e => .error e
      | .ok cs => .ok cs

/-- Model of `createComment(file, chunk, aiResponse)` called on the parsed reply:
only arrays have `flatMap`; any other value throws a TypeError. -/
def applyFlatMap (file : FileC) (v : JsonVal) : Except JsErr (List Comment) :=
  match v with
  | .arr xs => createCommentM file xs
  | _ => .error .typeError

/-- Result of the `analyzeCode` loop: the comment list (or a thrown
error), the console output, the remote calls, and the next completion
call index. -/
structure AnalyzeResult where
  res : Except JsErr (List Comment)
  logs : List LogEntry
  calls : List ApiCall
  nextIdx : Nat

/-- The body of one iteration of the `for (const chunk of file.chunks)`
loop after the completion call: `if (aiResponse)` guards the
`createComment` mapping; a `null`/falsy response contributes nothing. -/
def chunkContrib (env : Env) (file : FileC) (i : Nat) :
    Except JsErr (List Comment) :=
  match (getAIResponseM env i).1 with
  | none => .ok []
  | some v => if jsTruthy v then applyFlatMap file v else .ok []

/-- The inner `for (const chunk of file.chunks)` loop of `analyzeCode`. -/
def analyzeChunks (env : Env) (pr : PRDetails) (file : FileC) :
    List Chunk → Nat → AnalyzeResult
  | [], i => ⟨.ok [], [], [], i⟩
  | ch :: cs, i =>
    let prompts := createPromptsM file ch pr
    match chunkContrib env file i with
    | .error e => ⟨.error e, (getAIResponseM env i).2, [.completionPost prompts], i + 1⟩
    | .ok cms =>
      let r := analyzeChunks env pr file cs (i + 1)
      ⟨r.res.map (fun rest => cms ++ rest), (getAIResponseM env i).2 ++ r.logs,
        .completionPost prompts :: r.calls, r.nextIdx⟩

/-- The outer `for (const file of parsedDiff)` loop of `analyzeCode`;
a file whose `to` is the deletion sentinel is skipped by `continue`. -/
def analyzeFiles (env : Env) (pr : PRDetails) :
    List FileC → Nat → AnalyzeResult
  | [], i => ⟨.ok [], [], [], i⟩
  | f :: fs, i =>
    if f.toPath = some "/dev/null" then analyzeFiles env pr fs i
    else
      let r := analyzeChunks env pr f f.chunks i
      match r.res with
      | .error e => ⟨.error e, r.logs, r.calls, r.nextIdx⟩
      | .ok cms =>
        let r2 := analyzeFiles env pr fs r.nextIdx
        ⟨r2.res.map (fun rest => cms ++ rest), r.logs ++ r2.logs,
          r.calls ++ r2.calls, r2.nextIdx⟩

/-- Model of `core.getInput("exclude").split(",").map(s => s.trim())`. -/
def excludePatternsM (input : String) : List String :=
  (jsSplitComma input).map (fun s => jsTrim s)

/-- The exclude filter of `main`: keep a file unless some pattern
matches `file.toPath ?? ""`. -/
def filteredDiffM (m : String → String → Bool) (input : String)
    (files : List FileC) : List FileC :=
  files.filter (fun f =>
    !((excludePatternsM input).any (fun p => m (f.toPath.getD "") p)))

/-- The analysis performed once a non-empty diff text `d` is in hand:
parse it, apply the exclude filter, run `analyzeCode`. -/
def runAnalysis (env : Env) (pr : PRDetails) (d : String) : AnalyzeResult :=
  analyzeFiles env pr (filteredDiffM env.minimatch env.excludeInput (env.parseDiffLib d)) 0

/-- Result of a whole run: process exit code, console output, remote
calls in order. -/
structure RunResult where
  exitCode : Nat
  logs : List LogEntry
  calls : List ApiCall

/-- The tail of `main` after diff retrieval: `if (!diff) ...` (both
`null` and the empty string are falsy), then parse, filter, analyze,
and publish a single review when comments were produced.  An uncaught
error reaches `main().catch`, which logs and exits with code 1. -/
def afterDiff (env : Env) (pr : PRDetails) (calls : List ApiCall)
    (diff : Option String) : RunResult :=
  match diff with
  | none => ⟨0, [.noDiff], calls⟩
  | some d =>
    if d = "" then ⟨0, [.noDiff], calls⟩
    else
      let ar := runAnalysis env pr d
      match ar.res with
      | .error _ => ⟨1, ar.logs ++ [.topError], calls ++ ar.calls⟩
      | .ok comments =>
        if comments.length > 0 then
          ⟨0, ar.logs,
            calls ++ ar.calls ++
              [.createReview pr.owner pr.repo pr.pull_number comments "COMMENT"]⟩
        else ⟨0, ar.logs, calls ++ ar.calls⟩

/-- The metadata `octokit.pulls.get` call made by `getPRDetails`. -/
def prMetaCall (pr : PRDetails) : ApiCall :=
  .pullsGet pr.owner pr.repo pr.pull_number false

/-- The diff-media-format `octokit.pulls.get` call made by `getDiff`. -/
def prDiffCall (pr : PRDetails) : ApiCall :=
  .pullsGet pr.owner pr.repo pr.pull_number true

/-- The `main` function: fetch PR details, branch on the event action
to retrieve the diff, then hand off to the post-retrieval pipeline. -/
def mainM (env : Env) : RunResult :=
  let pr := prDetailsM env
  if env.event.action = "opened" then
    afterDiff env pr [prMetaCall pr, prDiffCall pr] (some env.diffMedia)
  else if env.event.action = "synchronize" then
    let cmp := ApiCall.compareCommits pr.owner pr.repo
      (env.event.before ++ "..." ++ env.event.after)
    match env.compareDiffUrl with
    | some url =>
      if url = "" then afterDiff env pr [prMetaCall pr, cmp] none
      else afterDiff env pr [prMetaCall pr, cmp, .request url]
        (some (env.urlFetch url))
    | none => afterDiff env pr [prMetaCall pr, cmp] none
  else
    ⟨0, [.unsupportedEvent env.eventName], [prMetaCall pr]⟩

/-- Is a remote call a review-creation call? -/
def isCreateReviewCall : ApiCall → Bool
  | .createReview _ _ _ _ _ => true
  | _ => false

/-- The diff text available to the run, as a function of the event
action and the comparison's diff URL (used to state publication
claims without re-running retrieval). -/
def mainDiff (env : Env) : Option String :=
  if env.event.action = "opened" then some env.diffMedia
  else if env.event.action = "synchronize" then
    match env.compareDiffUrl with
    | some url => if url = "" then none else some (env.urlFetch url)
    | none => none
  else none

/-- The analysis result of the run, when the run reaches analysis. -/
def mainAnalysis (env : Env) : Option AnalyzeResult :=
  match mainDiff env with
  | none => none
  | some d => if d = "" then none else some (runAnalysis env (prDetailsM env) d)

/-- Replace the outcome of the `i`-th completion call. -/
def envSetAI (env : Env) (i : Nat) (o : AIOutcome) : Env :=
  { env with ai := fun j => if j = i then o else env.ai j }

/-- Modelled from the spec (section 4.2): the claim's diff-retrieval
behaviour — "opened" fetches the diff directly in diff media format,
"synchronize" compares base...head and follows the returned diff URL
(absent when the URL is missing), any other action logs and returns
with no further API calls. -/
def diffRetrievalSpec (env : Env) : RunResult :=
  let pr := prDetailsM env
  if env.event.action = "opened" then
    afterDiff env pr [prMetaCall pr, prDiffCall pr] (some env.diffMedia)
  else if env.event.action = "synchronize" then
    let cmp := ApiCall.compareCommits pr.owner pr.repo
      (env.event.before ++ "..." ++ env.event.after)
    match env.compareDiffUrl with
    | some url =>
      afterDiff env pr [prMetaCall pr, cmp, .request url] (some (env.urlFetch url))
    | none => afterDiff env pr [prMetaCall pr, cmp] none
  else
    ⟨0, [.unsupportedEvent env.eventName], [prMetaCall pr]⟩

/-- The claim's response-text rule (spec wording, C6): trim the
content, substitute `"[]"` only when the content is absent. -/
def claimRawText : Option String → String
  | none => "[]"
  | some s => jsTrim s

/-- The amended response-text rule: substitute `"[]"` when the content
is absent or trims to the empty string, else the trimmed content. -/
def amendedRawText (c : Option String) : String :=
  match c.map jsTrim with
  | none => "[]"
  | some t => if t = "" then "[]" else t

/-- The claim's resolved line number (spec wording, C7): the
new-version line number when available, else the old-version one. -/
def specResolvedLn : Change → Int
  | .add ln _ => ln
  | .del ln _ => ln
  | .normal _ ln2 _ => ln2

/- ------------------------------------------------------------------ -/
/- Concrete instances used by witnesses and counterexamples.           -/

/-- A concrete matcher agreeing with minimatch on the empty pattern
(minimatch's `empty` case matches only the empty string). -/
def simpleMatch : String → String → Bool :=
  fun s p => if p = "" then s == "" else false

def baseChunk : Chunk :=
  ⟨"@@ -1 +1 @@", [Change.add 1 "x"]⟩

def baseFile : FileC :=
  ⟨some "a.js", [baseChunk]⟩

def delFile : FileC :=
  ⟨some "/dev/null", [baseChunk]⟩

def baseEvent : EventData :=
  ⟨"octo", "widgets", 7, "opened", "sha0", "sha1"⟩

/-- A concrete `JSON.parse` covering the strings the witnesses use. -/
def baseParse : String → Option JsonVal :=
  fun s =>
    if s = "[]" then some (.arr [])
    else if s = "null" then some JsonVal.null
    else none

def baseEnv : Env where
  event := baseEvent
  eventName := some "pull_request"
  prTitle := some "Add widget"
  prBody := some "Adds a widget."
  diffMedia := "raw diff text"
  compareDiffUrl := some "https://example.invalid/d.diff"
  urlFetch := fun _ => "raw diff text"
  excludeInput := ""
  parseDiffLib := fun _ => [baseFile]
  jsonParse := baseParse
  minimatch := simpleMatch
  ai := fun _ => .err

def envSyncW : Env :=
  { baseEnv with event := { baseEvent with action := "synchronize" } }

def envC6w : Env :=
  { baseEnv with ai := fun _ => .resp (some "  ") }

def envC9x : Env :=
  { baseEnv with ai := fun _ => .resp (some "null") }

def envC9w : Env :=
  { baseEnv with
    ai := fun _ => .resp (some "nope")
    jsonParse := fun s => if s = "nope" then some (.obj []) else none }

def c1File : GFile :=
  ⟨"f.js", [⟨[⟨GChangeType.insert, "a"⟩]⟩, ⟨[⟨GChangeType.insert, "b"⟩]⟩]⟩

def c8Files : List GFile :=
  [⟨"g.js", [⟨[⟨GChangeType.delete, "z"⟩, ⟨GChangeType.normal, "w"⟩]⟩]⟩]

def c7Chunk : Chunk :=
  ⟨"@@ -1,2 +1,2 @@", [Change.normal 1 1 " ctx", Change.add 2 "new line", Change.del 2 "old line"]⟩

def c7File : FileC :=
  ⟨some "a.js", [c7Chunk]⟩

def c7PR : PRDetails :=
  ⟨"octo", "widgets", 7, "Add widget", "Adds a widget."⟩

def c10Files : List FileC :=
  [⟨none, []⟩, ⟨some "a.js", []⟩, ⟨some "b.ts", [baseChunk]⟩]

/- Helper lemmas about strings and `unlines`. -/

theorem strAppendAssoc (a b c : String) : a ++ b ++ c = a ++ (b ++ c) :=
  String.append_assoc a b c

theorem unlinesAppend (xs ys : List String) :
    unlines (xs ++ ys) = unlines xs ++ unlines ys := by
  induction xs with
  | nil => simp [unlines, String.empty_append]
  | cons l ls ih =>
    show l ++ "\n" ++ unlines (ls ++ ys) = l ++ "\n" ++ unlines ls ++ unlines ys
    rw [ih]
    simp [strAppendAssoc]

/-- The printer's output, decomposed into the line list `fileLines`. -/
theorem printFilesUnlines (files : List GFile) :
    printFiles files = unlines (files.flatMap fileLines) := by
  induction files with
  | nil => rfl
  | cons f fs ih =>
    have hh : printHunks f.hunks =
        unlines (f.hunks.flatMap (fun h => [hunkBlock h, ""])) := by
      induction f.hunks with
      | nil => rfl
      | cons h hs ih2 =>
        simp only [List.flatMap_cons, unlinesAppend, printHunks, ih2]
        simp [unlines, consoleLog, strAppendAssoc, String.append_empty,
          String.empty_append]
    simp only [List.flatMap_cons, unlinesAppend, printFiles, ih]
    simp only [printFile, fileLines, hh]
    simp [unlinesAppend, unlines, consoleLog, strAppendAssoc,
      String.append_empty, String.empty_append]

/-- A hunk with no insertion changes produces an empty block. -/
theorem hunkBlockEmpty (hk : GHunk)
    (h : ∀ c ∈ hk.changes, c.type ≠ GChangeType.insert) : hunkBlock hk = "" := by
  unfold hunkBlock
  have hf : hk.changes.filter (fun c => c.type == GChangeType.insert) = [] := by
    refine List.filter_eq_nil_iff.mpr ?_
    intro c hc
    simp [h c hc]
  rw [hf]
  rfl

/- ------------------------------------------------------------------ -/
/- Claim theorems.                                                     -/

/-- C1 counterexample: for a file with two hunks, each holding one
insertion, the printer's output differs from the claimed shape (a
single per-file insertion block joining the insertions of all hunks):
the code emits one block per hunk, each followed by a blank line. -/
theorem c1_counterexample : parseDiffOutput [c1File] ≠ claimOutput [c1File] := by
  decide

/-- C1 (amended): for every parsed diff, the printer's output is the
line rendering of: per file, a header line naming the destination
path, then for EACH hunk that hunk's insertion block — the
newline-join of the content of that hunk's insertions, in original
order — followed by a blank separator line, then two blank lines
closing the file. -/
theorem c1_per_hunk_insertion_blocks (files : List GFile) :
    parseDiffOutput files = unlines (files.flatMap fileLines) :=
  printFilesUnlines files

/-- C8: for every diff containing zero changes of kind insertion, every
line the printer emits is either a file header line or blank. -/
theorem c8_no_insertions_only_headers_and_blanks (files : List GFile)
    (h : ∀ f ∈ files, ∀ hk ∈ f.hunks, ∀ c ∈ hk.changes,
      c.type ≠ GChangeType.insert) :
    ∃ L, parseDiffOutput files = unlines L ∧
      ∀ l ∈ L, (∃ f ∈ files, l = headerLine f) ∨ l = "" := by
  refine ⟨files.flatMap fileLines, printFilesUnlines files, ?_⟩
  intro l hl
  rw [List.mem_flatMap] at hl
  obtain ⟨f, hf, hlf⟩ := hl
  unfold fileLines at hlf
  rcases List.mem_cons.mp hlf with h1 | h2
  · exact Or.inl ⟨f, hf, h1⟩
  rcases List.mem_append.mp h2 with h3 | h4
  · rw [List.mem_flatMap] at h3
    obtain ⟨hk, hhk, hlh⟩ := h3
    have hb : hunkBlock hk = "" := hunkBlockEmpty hk (h f hf hk hhk)
    rcases List.mem_cons.mp hlh with h5 | h6
    · exact Or.inr (h5.trans hb)
    · right
      simpa using h6
  · right
    simpa using h4

/-- C8 witness: a concrete one-file diff whose only changes are a
deletion and a context line. -/
theorem c8_witness :
    (∀ f ∈ c8Files, ∀ hk ∈ f.hunks, ∀ c ∈ hk.changes,
      c.type ≠ GChangeType.insert) ∧
    ∃ L, parseDiffOutput c8Files = unlines L ∧
      ∀ l ∈ L, (∃ f ∈ c8Files, l = headerLine f) ∨ l = "" :=
  ⟨by decide, c8_no_insertions_only_headers_and_blanks c8Files (by decide)⟩

/-- C6 counterexample: a response whose content is a single space is
not absent, yet the code substitutes the empty-array text (the `||`
fallback fires on any falsy trimmed content), while the claim's rule
would hand the empty string to the JSON parser. -/
theorem c6_counterexample :
    aiRawText (some " ") = "[]" ∧ claimRawText (some " ") = "" ∧
      aiRawText (some " ") ≠ claimRawText (some " ") :=
  ⟨by decide, by decide, by decide⟩

/-- C6 (amended): the model-invocation step extracts the first choice's
message content, trims it, substitutes the literal empty-array text
when the content is absent OR trims to the empty string, and hands the
resulting text to the JSON parser to produce the hunk's result. -/
theorem c6_response_text_amended (env : Env) (i : Nat) (c : Option String)
    (h : env.ai i = .resp c) :
    aiRawText c = amendedRawText c ∧
      (getAIResponseM env i).1 = env.jsonParse (amendedRawText c) := by
  have he : aiRawText c = amendedRawText c := by
    cases c with
    | none => rfl
    | some s => rfl
  refine ⟨he, ?_⟩
  unfold getAIResponseM
  rw [h, ← he]
  cases hj : env.jsonParse (aiRawText c) <;> simp [hj]

/-- C6 amended witness: a concrete environment whose completion call
yields whitespace-only content. -/
theorem c6_response_text_amended_witness :
    envC6w.ai 0 = AIOutcome.resp (some "  ") ∧
      aiRawText (some "  ") = amendedRawText (some "  ") ∧
      (getAIResponseM envC6w 0).1 = envC6w.jsonParse (amendedRawText (some "  ")) :=
  ⟨rfl, (c6_response_text_amended envC6w 0 (some "  ") rfl).1,
    (c6_response_text_amended envC6w 0 (some "  ") rfl).2⟩

/-- C10: with the empty exclude input the pattern list is the single
empty-string pattern; under minimatch's empty-pattern behaviour
(an empty pattern matches exactly the empty string) the filter then
drops precisely the files whose destination (substituting the empty
string when missing) is empty, and retains every file with a
destination path. -/
theorem c10_exclude_empty_input (m : String → String → Bool)
    (hm : ∀ s, m s "" = (s == "")) :
    excludePatternsM "" = [""] ∧
      ∀ files : List FileC, filteredDiffM m "" files =
        files.filter (fun f => f.toPath.getD "" != "") := by
  have hp : excludePatternsM "" = [""] := by decide
  refine ⟨hp, ?_⟩
  intro files
  unfold filteredDiffM
  rw [hp]
  refine List.filter_congr ?_
  intro f _
  simp [hm, bne]

/-- C10 witness: a concrete file list with a destination-less file, and
a matcher with minimatch's empty-pattern behaviour. -/
theorem c10_exclude_empty_input_witness :
    (∀ s, simpleMatch s "" = (s == "")) ∧
      excludePatternsM "" = [""] ∧
      filteredDiffM simpleMatch "" c10Files =
        c10Files.filter (fun f => f.toPath.getD "" != "") ∧
      filteredDiffM simpleMatch "" c10Files =
        [⟨some "a.js", []⟩, ⟨some "b.ts", [baseChunk]⟩] := by
  have hm : ∀ s, simpleMatch s "" = (s == "") := fun s => rfl
  exact ⟨hm, (c10_exclude_empty_input simpleMatch hm).1,
    (c10_exclude_empty_input simpleMatch hm).2 c10Files, by decide⟩

/-- C7: for every file with a destination path, hunk and PR details,
the prompt's user segment embeds the file path, the PR title, the PR
description, and the hunk's diff content with each change line
prefixed by its resolved line number — new-version number when
available, else the old-version number (line numbers in real diffs
are nonzero, hence the hypothesis). -/
theorem c7_prompt_user_segment (file : FileC) (chunk : Chunk)
    (pr : PRDetails) (p : String) (hp : file.toPath = some p)
    (hln : ∀ c ∈ chunk.changes, lnField c ≠ some 0) :
    (createPromptsM file chunk pr).2.2 =
      "Review the following code diff in the file \"" ++ p ++
        "\" and take the pull request title and description into account when writing the response.\nPull request title: " ++
        pr.title ++ "\n  \nPull request description:\n---\n" ++ pr.description ++
        "\n---\n\nGit diff to review:\n\n```diff\n" ++ chunk.content ++ "\n" ++
        String.intercalate "\n"
          (chunk.changes.map
            (fun c => toString (specResolvedLn c) ++ " " ++ changeContent c)) ++
        "\n```\n" := by
  have hmap : chunk.changes.map (fun c => changeLineTag c ++ " " ++ changeContent c) =
      chunk.changes.map
        (fun c => toString (specResolvedLn c) ++ " " ++ changeContent c) := by
    refine List.map_congr_left ?_
    intro c hc
    have hc0 := hln c hc
    cases c with
    | add ln cnt =>
      have hne : (ln != 0) = true := by
        simp only [lnField] at hc0
        simp [bne_iff_ne]
        intro e
        exact hc0 (by rw [e])
      simp [changeLineTag, lnField, ln2Field, jsNumTruthy, jsNumToStr,
        specResolvedLn, hne]
    | del ln cnt =>
      have hne : (ln != 0) = true := by
        simp only [lnField] at hc0
        simp [bne_iff_ne]
        intro e
        exact hc0 (by rw [e])
      simp [changeLineTag, lnField, ln2Field, jsNumTruthy, jsNumToStr,
        specResolvedLn, hne]
    | normal ln1 ln2 cnt => rfl
  show userPromptM file chunk pr = _
  unfold userPromptM
  rw [hp, hmap]
  rfl

/-- C7 witness: a concrete chunk with a context, an add and a delete
change. -/
theorem c7_prompt_user_segment_witness :
    c7File.toPath = some "a.js" ∧
      (∀ c ∈ c7Chunk.changes, lnField c ≠ some 0) ∧
      (createPromptsM c7File c7Chunk c7PR).2.2 =
        "Review the following code diff in the file \"" ++ "a.js" ++
          "\" and take the pull request title and description into account when writing the response.\nPull request title: " ++
          c7PR.title ++ "\n  \nPull request description:\n---\n" ++ c7PR.description ++
          "\n---\n\nGit diff to review:\n\n```diff\n" ++ c7Chunk.content ++ "\n" ++
          String.intercalate "\n"
            (c7Chunk.changes.map
              (fun c => toString (specResolvedLn c) ++ " " ++ changeContent c)) ++
          "\n```\n" :=
  ⟨rfl, by decide, c7_prompt_user_segment c7File c7Chunk c7PR "a.js" rfl (by decide)⟩

/-- C2: diff retrieval branches on the event action — "opened" fetches
the diff via the direct diff-media-format pull-request call;
"synchronize" requests a base...head comparison and follows its diff
URL as a secondary request, or treats the diff as absent when that URL
is missing; any other action logs and returns normally with no further
API calls and no comments.  (Real diff URLs are nonempty, hence the
hypothesis: an empty-string URL would be falsy in JavaScript.) -/
theorem c2_diff_retrieval_branches (env : Env)
    (h : env.compareDiffUrl ≠ some "") :
    mainM env = diffRetrievalSpec env := by
  unfold mainM diffRetrievalSpec
  by_cases h1 : env.event.action = "opened"
  · simp [h1]
  · simp only [h1, if_false]
    by_cases h2 : env.event.action = "synchronize"
    · simp only [h2, if_true]
      cases hu : env.compareDiffUrl with
      | none => rfl
      | some url =>
        have hne : ¬ url = "" := fun e => h (by rw [hu, e])
        simp [hne]
    · simp [h2]

/-- C2 witness: a concrete "synchronize" run. -/
theorem c2_diff_retrieval_branches_witness :
    envSyncW.compareDiffUrl ≠ some "" ∧
      envSyncW.event.action = "synchronize" ∧
      mainM envSyncW = diffRetrievalSpec envSyncW :=
  ⟨by decide, rfl, c2_diff_retrieval_branches envSyncW (by decide)⟩

/-- C4: a parsed file whose destination is the deletion sentinel
`/dev/null` is never processed: removing it from the analyzed list
changes nothing — no prompt is built for its hunks, no completion call
is recorded, and no comments are produced for it. -/
theorem c4_deleted_files_never_processed (env : Env) (pr : PRDetails)
    (fs1 fs2 : List FileC) (f : FileC) (k : Nat)
    (hdel : f.toPath = some "/dev/null") :
    analyzeFiles env pr (fs1 ++ f :: fs2) k = analyzeFiles env pr (fs1 ++ fs2) k := by
  induction fs1 generalizing k with
  | nil =>
    simp only [List.nil_append]
    conv_lhs => rw [analyzeFiles]
    simp [hdel]
  | cons g gs ih =>
    simp only [List.cons_append, analyzeFiles]
    by_cases hg : g.toPath = some "/dev/null"
    · simp only [hg, if_true]
      exact ih k
    · simp only [hg, if_false]
      cases hr : (analyzeChunks env pr g g.chunks k).res with
      | error e => simp [hr]
      | ok cms => simp [hr, ih]

/-- C4 witness: a concrete deleted file between analyzed files. -/
theorem c4_deleted_files_never_processed_witness :
    delFile.toPath = some "/dev/null" ∧
      analyzeFiles baseEnv c7PR ([baseFile] ++ delFile :: []) 0 =
        analyzeFiles baseEnv c7PR ([baseFile] ++ []) 0 :=
  ⟨rfl, c4_deleted_files_never_processed baseEnv c7PR [baseFile] [] delFile 0 rfl⟩

/-- The chunk loop only issues completion calls, never review creation. -/
theorem analyzeChunksNoReview (env : Env) (pr : PRDetails) (file : FileC) :
    ∀ cs k, ((analyzeChunks env pr file cs k).calls).filter isCreateReviewCall = [] := by
  intro cs
  induction cs with
  | nil => intro k; rfl
  | cons ch cs ih =>
    intro k
    simp only [analyzeChunks]
    cases hc : chunkContrib env file k with
    | error e => simp [isCreateReviewCall]
    | ok cms => simp [List.filter_cons, isCreateReviewCall, ih]

/-- The file loop only issues completion calls, never review creation. -/
theorem analyzeFilesNoReview (env : Env) (pr : PRDetails) :
    ∀ fs k, ((analyzeFiles env pr fs k).calls).filter isCreateReviewCall = [] := by
  intro fs
  induction fs with
  | nil => intro k; rfl
  | cons f fs ih =>
    intro k
    simp only [analyzeFiles]
    by_cases hf : f.toPath = some "/dev/null"
    · simp only [hf, if_true]
      exact ih k
    · simp only [hf, if_false]
      cases hr : (analyzeChunks env pr f f.chunks k).res with
      | error e => simp [analyzeChunksNoReview]
      | ok cms => simp [List.filter_append, analyzeChunksNoReview, ih]

/-- Review-creation calls produced by the post-retrieval pipeline. -/
theorem afterDiffReviewCalls (env : Env) (pr : PRDetails)
    (calls : List ApiCall) (d : Option String)
    (hc : calls.filter isCreateReviewCall = []) :
    (afterDiff env pr calls d).calls.filter isCreateReviewCall =
      (match d with
       | none => []
       | some s =>
         if s = "" then []
         else
           match (runAnalysis env pr s).res with
           | .ok cs =>
             if cs.isEmpty then []
             else [ApiCall.createReview pr.owner pr.repo pr.pull_number cs "COMMENT"]
           | .error _ => []) := by
  cases d with
  | none => simpa [afterDiff] using hc
  | some s =>
    by_cases hs : s = ""
    · simpa [afterDiff, hs] using hc
    · simp only [afterDiff, hs, if_false, if_neg]
      cases hr : (runAnalysis env pr s).res with
      | error e =>
        simp [hr, List.filter_append, hc, runAnalysis, analyzeFilesNoReview]
      | ok cs =>
        by_cases hcs : cs.isEmpty
        · have : ¬ cs.length > 0 := by simp [List.isEmpty_iff.mp hcs]
          simp [hr, hcs, this, List.filter_append, hc, runAnalysis,
            analyzeFilesNoReview]
        · have : cs.length > 0 := by
            cases cs with
            | nil => simp at hcs
            | cons a l => simp
          simp [hr, hcs, this, List.filter_append, hc, runAnalysis,
            analyzeFilesNoReview, isCreateReviewCall]

/-- C5: at the end of every run, when the aggregated comment list is
non-empty exactly one review-creation call is made, publishing all
accumulated comments as a single review with event "COMMENT"; when the
list is empty (or the run never reaches analysis, or analysis throws)
no review-creation call is made. -/
theorem c5_single_review_publication (env : Env) :
    (mainM env).calls.filter isCreateReviewCall =
      (match mainAnalysis env with
       | some ar =>
         match ar.res with
         | .ok cs =>
           if cs.isEmpty then []
           else [ApiCall.createReview (prDetailsM env).owner (prDetailsM env).repo
                   (prDetailsM env).pull_number cs "COMMENT"]
         | .error _ => []
       | none => []) := by
  unfold mainM mainAnalysis mainDiff
  by_cases h1 : env.event.action = "opened"
  · simp only [h1, if_true]
    rw [afterDiffReviewCalls env (prDetailsM env) _ _ (by
      simp [prMetaCall, prDiffCall, isCreateReviewCall])]
    by_cases h2 : env.diffMedia = "" <;> simp [h2]
  · simp only [h1, if_false]
    by_cases h2 : env.event.action = "synchronize"
    · simp only [h2, if_true]
      cases hu : env.compareDiffUrl with
      | none =>
        rw [afterDiffReviewCalls env (prDetailsM env) _ _ (by
          simp [prMetaCall, isCreateReviewCall])]
      | some url =>
        by_cases hq : url = ""
        · simp only [hq, if_true]
          rw [afterDiffReviewCalls env (prDetailsM env) _ _ (by
            simp [prMetaCall, isCreateReviewCall])]
        · simp only [hq, if_false]
          rw [afterDiffReviewCalls env (prDetailsM env) _ _ (by
            simp [prMetaCall, isCreateReviewCall])]
          by_cases h3 : env.urlFetch url = "" <;> simp [h3]
    · simp [h2, prMetaCall, isCreateReviewCall]

/-- A failing completion call: the request errors, or the response text
does not parse as JSON. -/
def aiCallFails (env : Env) (i : Nat) : Prop :=
  env.ai i = .err ∨
    ∃ c, env.ai i = .resp c ∧ env.jsonParse (aiRawText c) = none

/-- Patching the outcome of call `i` leaves every other call alone. -/
theorem getAIPatchNe (env : Env) (i : Nat) (o : AIOutcome) (j : Nat)
    (hj : j ≠ i) :
    getAIResponseM (envSetAI env i o) j = getAIResponseM env j := by
  unfold getAIResponseM envSetAI
  simp [hj]

/-- Patching the outcome of call `i` leaves other chunks' contributions
alone. -/
theorem chunkContribPatchNe (env : Env) (i : Nat) (o : AIOutcome)
    (file : FileC) (j : Nat) (hj : j ≠ i) :
    chunkContrib (envSetAI env i o) file j = chunkContrib env file j := by
  unfold chunkContrib
  rw [getAIPatchNe env i o j hj]

/-- A failing completion call is caught and logged and contributes no
comments. -/
theorem chunkContribFailAt (env : Env) (i : Nat) (file : FileC)
    (hfail : aiCallFails env i) :
    chunkContrib env file i = .ok [] ∧
      getAIResponseM env i = (none, [LogEntry.aiError]) := by
  have hg : getAIResponseM env i = (none, [LogEntry.aiError]) := by
    rcases hfail with h | ⟨c, hc, hp⟩
    · unfold getAIResponseM
      rw [h]
    · unfold getAIResponseM
      rw [hc]
      show (match env.jsonParse (aiRawText c) with
        | none => ((none : Option JsonVal), [LogEntry.aiError])
        | some v => (some v, [])) = (none, [LogEntry.aiError])
      rw [hp]
  exact ⟨by unfold chunkContrib; rw [hg], hg⟩

/-- The benign replacement (content `"[]"`) also contributes no
comments, without failing. -/
theorem chunkContribBenignAt (env : Env) (i : Nat) (file : FileC)
    (hbenign : env.jsonParse "[]" = some (JsonVal.arr [])) :
    chunkContrib (envSetAI env i (.resp (some "[]"))) file i = .ok [] := by
  have ht : aiRawText (some "[]") = "[]" := by decide
  have h1 : getAIResponseM (envSetAI env i (.resp (some "[]"))) i =
      (some (JsonVal.arr []), []) := by
    unfold getAIResponseM envSetAI
    simp [ht, hbenign]
  unfold chunkContrib
  rw [h1]
  rfl

/-- Replacing a failing call `i` with the benign empty-array response
changes neither the comment outcome nor the call trace nor the index
threading of the chunk loop. -/
theorem analyzeChunksPatch (env : Env) (i : Nat)
    (hfail : aiCallFails env i)
    (hbenign : env.jsonParse "[]" = some (JsonVal.arr []))
    (pr : PRDetails) (file : FileC) :
    ∀ cs k,
      (analyzeChunks env pr file cs k).res =
          (analyzeChunks (envSetAI env i (.resp (some "[]"))) pr file cs k).res ∧
        (analyzeChunks env pr file cs k).calls =
          (analyzeChunks (envSetAI env i (.resp (some "[]"))) pr file cs k).calls ∧
        (analyzeChunks env pr file cs k).nextIdx =
          (analyzeChunks (envSetAI env i (.resp (some "[]"))) pr file cs k).nextIdx := by
  intro cs
  induction cs with
  | nil => intro k; exact ⟨rfl, rfl, rfl⟩
  | cons ch cs ih =>
    intro k
    by_cases hk : k = i
    · subst hk
      have h1 := (chunkContribFailAt env k file hfail).1
      have h2 := chunkContribBenignAt env k file hbenign
      simp only [analyzeChunks, h1, h2]
      obtain ⟨e1, e2, e3⟩ := ih (k + 1)
      exact ⟨by rw [e1], by rw [e2], by rw [e3]⟩
    · have hpatch := chunkContribPatchNe env i (.resp (some "[]")) file k hk
      simp only [analyzeChunks, hpatch]
      cases hc : chunkContrib env file k with
      | error e => exact ⟨rfl, rfl, rfl⟩
      | ok cms =>
        obtain ⟨e1, e2, e3⟩ := ih (k + 1)
        exact ⟨by rw [e1], by rw [e2], by rw [e3]⟩

/-- Replacing a failing call `i` with the benign empty-array response
changes neither the comment outcome nor the call trace nor the index
threading of the file loop. -/
theorem analyzeFilesPatch (env : Env) (i : Nat)
    (hfail : aiCallFails env i)
    (hbenign : env.jsonParse "[]" = some (JsonVal.arr []))
    (pr : PRDetails) :
    ∀ fs k,
      (analyzeFiles env pr fs k).res =
          (analyzeFiles (envSetAI env i (.resp (some "[]"))) pr fs k).res ∧
        (analyzeFiles env pr fs k).calls =
          (analyzeFiles (envSetAI env i (.resp (some "[]"))) pr fs k).calls ∧
        (analyzeFiles env pr fs k).nextIdx =
          (analyzeFiles (envSetAI env i (.resp (some "[]"))) pr fs k).nextIdx := by
  intro fs
  induction fs with
  | nil => intro k; exact ⟨rfl, rfl, rfl⟩
  | cons f fs ih =>
    intro k
    by_cases hf : f.toPath = some "/dev/null"
    · simp only [analyzeFiles, hf, if_true]
      exact ih k
    · simp only [analyzeFiles, hf, if_false]
      obtain ⟨e1, e2, e3⟩ := analyzeChunksPatch env i hfail hbenign pr f f.chunks k
      cases hr : (analyzeChunks env pr f f.chunks k).res with
      | error e =>
        have hr2 : (analyzeChunks (envSetAI env i (.resp (some "[]"))) pr f f.chunks k).res =
            .error e := by rw [← e1, hr]
        exact ⟨by simp [hr, hr2], by simp [hr, hr2, e2], by simp [hr, hr2, e3]⟩
      | ok cms =>
        have hr2 : (analyzeChunks (envSetAI env i (.resp (some "[]"))) pr f f.chunks k).res =
            .ok cms := by rw [← e1, hr]
        simp only [hr, hr2, ← e3]
        obtain ⟨g1, g2, g3⟩ := ih (analyzeChunks env pr f f.chunks k).nextIdx
        exact ⟨by rw [g1], by rw [e2, g2], by rw [g3]⟩

/-- C3: a per-hunk completion failure (request error or non-JSON
response content) is caught and logged, that hunk contributes zero
comments (an absent result), and every other hunk and the overall
outcome are unaffected: the run's comments and remote-call trace equal
those of the same run with the failing call replaced by a benign
empty-array response. -/
theorem c3_hunk_failure_isolated (env : Env) (i : Nat)
    (hfail : aiCallFails env i)
    (hbenign : env.jsonParse "[]" = some (JsonVal.arr [])) :
    getAIResponseM env i = (none, [LogEntry.aiError]) ∧
      ∀ pr files k,
        (analyzeFiles env pr files k).res =
            (analyzeFiles (envSetAI env i (.resp (some "[]"))) pr files k).res ∧
          (analyzeFiles env pr files k).calls =
            (analyzeFiles (envSetAI env i (.resp (some "[]"))) pr files k).calls := by
  refine ⟨(chunkContribFailAt env i ⟨none, []⟩ hfail).2, ?_⟩
  intro pr files k
  obtain ⟨e1, e2, _⟩ := analyzeFilesPatch env i hfail hbenign pr files k
  exact ⟨e1, e2⟩

/-- C3 witness: a concrete run whose single completion call errors. -/
theorem c3_hunk_failure_isolated_witness :
    aiCallFails baseEnv 0 ∧
      getAIResponseM baseEnv 0 = (none, [LogEntry.aiError]) ∧
      (analyzeFiles baseEnv c7PR [baseFile] 0).res =
        (analyzeFiles (envSetAI baseEnv 0 (.resp (some "[]"))) c7PR [baseFile] 0).res :=
  ⟨Or.inl rfl, (c3_hunk_failure_isolated baseEnv 0 (Or.inl rfl) rfl).1,
    ((c3_hunk_failure_isolated baseEnv 0 (Or.inl rfl) rfl).2 c7PR [baseFile] 0).1⟩

/-- C9 counterexample: content `"null"` is syntactically valid JSON and
not an array, the per-hunk catch does not fire (no error is logged),
yet nothing throws: `null` is falsy, so the hunk is skipped and the
run terminates normally with exit code 0 instead of aborting. -/
theorem c9_counterexample :
    envC9x.ai 0 = AIOutcome.resp (some "null") ∧
      envC9x.jsonParse (aiRawText (some "null")) = some JsonVal.null ∧
      isArrVal JsonVal.null = false ∧
      getAIResponseM envC9x 0 = (some JsonVal.null, []) ∧
      (mainM envC9x).exitCode = 0 ∧
      (mainM envC9x).calls.filter isCreateReviewCall = [] :=
  ⟨rfl, rfl, rfl, rfl, rfl, rfl⟩

/-- C9 (amended): when the completion content parses to a TRUTHY
non-array JSON value (an object, for instance), the per-hunk catch
does not fire and the comment-mapping step throws an uncaught
TypeError that aborts the whole run with exit code 1 and no review
call; falsy parse results (null, false, 0, the empty string) are
instead skipped harmlessly. -/
theorem c9_truthy_nonarray_aborts (env : Env) (f : FileC) (ch : Chunk)
    (s : String) (v : JsonVal)
    (h1 : env.event.action = "opened")
    (h2 : env.diffMedia ≠ "")
    (h3 : filteredDiffM env.minimatch env.excludeInput
      (env.parseDiffLib env.diffMedia) = [f])
    (h4 : f.toPath ≠ some "/dev/null")
    (h5 : f.chunks = [ch])
    (h6 : env.ai 0 = .resp (some s))
    (h7 : env.jsonParse (aiRawText (some s)) = some v)
    (h8 : jsTruthy v = true)
    (h9 : isArrVal v = false) :
    (mainM env).exitCode = 1 ∧
      (mainM env).calls.filter isCreateReviewCall = [] := by
  have hga : (getAIResponseM env 0).1 = some v := by
    unfold getAIResponseM
    rw [h6]
    show (match env.jsonParse (aiRawText (some s)) with
      | none => ((none : Option JsonVal), [LogEntry.aiError])
      | some w => (some w, [])).1 = some v
    rw [h7]
  have hfm : applyFlatMap f v = .error .typeError := by
    cases v with
    | arr xs => simp [isArrVal] at h9
    | null => rfl
    | bool b => rfl
    | num n => rfl
    | str st => rfl
    | obj fs => rfl
  have hcc : chunkContrib env f 0 = .error .typeError := by
    unfold chunkContrib
    rw [hga]
    show (if jsTruthy v = true then applyFlatMap f v else Except.ok []) =
      .error .typeError
    rw [h8, if_pos rfl, hfm]
  have hach : (analyzeChunks env (prDetailsM env) f f.chunks 0).res =
      .error .typeError := by
    rw [h5]
    simp [analyzeChunks, hcc]
  have har : (runAnalysis env (prDetailsM env) env.diffMedia).res =
      .error .typeError := by
    unfold runAnalysis
    rw [h3]
    simp only [analyzeFiles, h4, if_false]
    simp only [hach]
  have hm : mainM env = afterDiff env (prDetailsM env)
      [prMetaCall (prDetailsM env), prDiffCall (prDetailsM env)]
      (some env.diffMedia) := by
    unfold mainM
    simp [h1]
  refine ⟨?_, ?_⟩
  · rw [hm]
    unfold afterDiff
    simp [h2, har]
  · rw [hm]
    unfold afterDiff
    simp only [h2, ite_false, if_false, har]
    simp [List.filter_append, runAnalysis, analyzeFilesNoReview,
      prMetaCall, prDiffCall, isCreateReviewCall]

/-- C9 amended witness: a concrete run whose single completion call
yields content parsing to an empty JSON object. -/
theorem c9_truthy_nonarray_aborts_witness :
    envC9w.jsonParse (aiRawText (some "nope")) = some (JsonVal.obj []) ∧
      jsTruthy (JsonVal.obj []) = true ∧
      isArrVal (JsonVal.obj []) = false ∧
      (mainM envC9w).exitCode = 1 ∧
      (mainM envC9w).calls.filter isCreateReviewCall = [] := by
  have h := c9_truthy_nonarray_aborts envC9w baseFile baseChunk "nope"
    (JsonVal.obj []) rfl (by decide) (by decide) (by decide) rfl rfl rfl rfl rfl
  exact ⟨rfl, rfl, rfl, h.1, h.2⟩

end AiCodeReviewer
